import Mathlib

/-!
Verification of the storage-key derivation and decoding logic of
`substrateinterface/storage.py` (class `StorageKey`).

The embedding translates `StorageKey.__init__`, `create_from_data`,
`create_from_storage_function`, `generate`, `create_key_type_def`,
`decode_key_data`, `decode_scale_value`, `to_hex` and `__repr__` into pure
Lean functions.  Python's in-place mutation of `self` is made explicit by
threading the `StorageKey` record through each operation; a raised python
exception becomes an `Except` error that carries the record in the state it
had at the moment the exception was raised (python leaves the object in
exactly that partially mutated state).

External collaborators (the SCALE codec engine, the metadata registry, the
hash primitives) are modelled at their interface boundary: hash primitives
are opaque byte functions supplied as a `Hashers` record, type descriptors
are encode/decode function pairs, and the metadata registry is a finite
table of pallets and storage functions.
-/

namespace PySubstrate

/-- A byte string; each entry stands for one byte (values are kept as `Nat`,
the python `bytes` invariant `b < 256` is immaterial to the properties
proved here). -/
abbrev Bytes := List Nat

/-- Universe of decoded SCALE values, rich enough for the types the claims
exercise: integers, fixed raw byte blocks (`Array<U8, n>`), tuples and
optionals. -/
inductive ScaleValue where
  | nat (n : Nat)
  | raw (bs : Bytes)
  | tup (vs : List ScaleValue)
  | noneVal
  | someVal (v : ScaleValue)

/-- A resolved type descriptor handed out by the external Type Registry /
Codec Engine: it can encode a native value into bytes (`None` on a codec
error) and decode a value from the front of a byte stream, returning the
remaining bytes (`None` on a codec error). -/
structure ScaleTypeDef where
  encode : ScaleValue → Option Bytes
  decode : Bytes → Option (ScaleValue × Bytes)

/-- The scalecodec `U8` type: one byte. -/
def U8 : ScaleTypeDef where
  encode := fun v =>
    match v with
    | .nat n => if n < 256 then some [n] else none
    | _ => none
  decode := fun bs =>
    match bs with
    | b :: rest => some (.nat b, rest)
    | [] => none

/-- The scalecodec `Array(U8, n)` type used by `create_key_type_def`: a raw
block of exactly `n` bytes. -/
def ArrayDef (n : Nat) : ScaleTypeDef where
  encode := fun v =>
    match v with
    | .raw bs => if bs.length = n then some bs else none
    | _ => none
  decode := fun bs =>
    if n ≤ bs.length then some (.raw (bs.take n), bs.drop n) else none

/-- Sequential decoding of a list of type descriptors, as scalecodec's
`Tuple` does: each member consumes a prefix of the remaining bytes. -/
def tupleDecode : List ScaleTypeDef → Bytes → Option (List ScaleValue × Bytes)
  | [], bs => some ([], bs)
  | t :: ts, bs =>
    match t.decode bs with
    | none => none
    | some (v, rest) =>
      match tupleDecode ts rest with
      | none => none
      | some (vs, rest2) => some (v :: vs, rest2)

/-- Sequential encoding of a tuple, member by member. -/
def tupleEncode : List ScaleTypeDef → List ScaleValue → Option Bytes
  | [], [] => some []
  | t :: ts, v :: vs =>
    match t.encode v with
    | none => none
    | some bs =>
      match tupleEncode ts vs with
      | none => none
      | some rest => some (bs ++ rest)
  | _, _ => none

/-- The scalecodec `Tuple(*members)` composite type. -/
def TupleDef (ts : List ScaleTypeDef) : ScaleTypeDef where
  encode := fun v =>
    match v with
    | .tup vs => tupleEncode ts vs
    | _ => none
  decode := fun bs =>
    match tupleDecode ts bs with
    | none => none
    | some (vs, rest) => some (.tup vs, rest)

/-- The scalecodec `Option(inner)` composite: byte `0x00` decodes to `None`,
byte `0x01` followed by the inner encoding decodes to `Some`.  The inner
type may itself be python `None` (as in `Option(self.value_scale_type)` when
no value type was resolved); only the `None` branch can then decode, any
other input fails when the absent inner type is touched. -/
def OptionDefOf (inner : Option ScaleTypeDef) : ScaleTypeDef where
  encode := fun v =>
    match v, inner with
    | .noneVal, _ => some [0]
    | .someVal w, some t =>
      match t.encode w with
      | none => none
      | some bs => some (1 :: bs)
    | _, _ => none
  decode := fun bs =>
    match bs, inner with
    | 0 :: rest, _ => some (.noneVal, rest)
    | 1 :: rest, some t =>
      match t.decode rest with
      | none => none
      | some (v, r) => some (.someVal v, r)
    | _, _ => none

/-- The scalecodec `Option(t)` composite over a present inner type. -/
def OptionDef (t : ScaleTypeDef) : ScaleTypeDef := OptionDefOf (some t)

/-- Modelled from the spec: the external hash primitives consumed by the
repository's `utils/hasher` module (that module is not part of the sources;
spec section 6 treats the primitives as pure black-box byte functions).
`xxh128` is the 128-bit dual-64 hash used for key prefixes and `Twox128`,
`xxh64` the 64-bit hash underlying `Twox64Concat`. -/
structure Hashers where
  blake2_256 : Bytes → Bytes
  blake2_128 : Bytes → Bytes
  xxh128 : Bytes → Bytes
  xxh64 : Bytes → Bytes

/-- Modelled from the spec: `blake2_128_concat` (128-bit hash, concatenated)
returns the hash of the input followed by the original input bytes
unchanged. -/
def blake2_128_concat (H : Hashers) (b : Bytes) : Bytes := H.blake2_128 b ++ b

/-- Modelled from the spec: `two_x64_concat` (64-bit hash, concatenated)
returns the 64-bit hash of the input followed by the original input bytes
unchanged. -/
def two_x64_concat (H : Hashers) (b : Bytes) : Bytes := H.xxh64 b ++ b

/-- Modelled from the spec: the identity transform passes the input through
unchanged. -/
def identity (b : Bytes) : Bytes := b

/-- Modelled from the spec: `concat_hash_len` from the repository's
`utils/hasher` module (not included in the sources).  It gives the size of
the fixed raw byte block that a hash kind contributes in front of a
parameter when a key tail is decoded: 16 for the 128-bit concatenated kind,
8 for the 64-bit concatenated kind, and 0 for identity, whose original
bytes are recovered through the declared parameter type itself; for kinds
that do not concatenate the original bytes and for an absent kind the
original raises (`none` here). -/
def concat_hash_len (key_hasher : Option String) : Option Nat :=
  match key_hasher with
  | some "Blake2_128Concat" => some 16
  | some "Twox64Concat" => some 8
  | some "Identity" => some 0
  | _ => none

/-- UTF-8 bytes of a string, python's `str.encode()`. -/
def strBytes (s : String) : Bytes := s.toUTF8.toList.map (fun b => b.toNat)

/-- A storage key parameter as accepted by `generate`: either a
pre-encoded byte sequence (python `ScaleBytes`) or a native value still to
be encoded through the parameter's resolved type. -/
inductive Param where
  | scaleBytes (bs : Bytes)
  | native (v : ScaleValue)

/-- Result of resolving a storage function's parameter-type id through the
portable registry: `generate` inspects whether the resolved definition is a
`Tuple` (many parameters) or any other type (a single parameter). -/
inductive ParamTypesDef where
  | tupleOf (ts : List ScaleTypeDef)
  | single (t : ScaleTypeDef)

/-- The list of per-parameter type descriptors obtained from a resolved
parameter-type definition, exactly the branch in `generate`:
`Tuple` unwraps to its members, anything else is a one-element list, and an
absent parameter-type id means zero parameters. -/
def resolveParamTypes : Option ParamTypesDef → List ScaleTypeDef
  | none => []
  | some (.tupleOf ts) => ts
  | some (.single t) => [t]

/-- A storage function entry of the metadata registry, at the interface
boundary of spec section 6; registry type-id resolution is abstracted by
storing the resolved value type and resolved parameter-type definition
directly. -/
structure StorageFunctionMd where
  name : String
  value_type : ScaleTypeDef
  param_types : Option ParamTypesDef
  param_hashers : List (Option String)
  modifier : String
  default_bytes : Bytes

/-- A pallet (module) entry of the metadata registry; `storage_prefix_str`
is `value['storage']['prefix']` in the source. -/
structure PalletMd where
  name : String
  storage_prefix_str : String
  storage_functions : List StorageFunctionMd

/-- The metadata registry. -/
structure Metadata where
  pallets : List PalletMd

/-- `metadata.get_metadata_pallet(name)`: first pallet with the given name,
`None` when the name is absent (or itself `None`). -/
def Metadata.get_metadata_pallet (m : Metadata) (name : Option String) : Option PalletMd :=
  match name with
  | none => none
  | some n => m.pallets.find? (fun p => p.name == n)

/-- `metadata_pallet.get_storage_function(name)`. -/
def PalletMd.get_storage_function (p : PalletMd) (name : String) : Option StorageFunctionMd :=
  p.storage_functions.find? (fun f => f.name == name)

/-- The exceptions the translated code can raise.  `StorageFunctionNotFound`
is the repository's own exception class; `missingHasher` and
`unknownHasher` are the two `ValueError`s of `generate` (carrying the
1-based parameter number and the offending hasher name respectively);
`unsupportedHashType` is the `ValueError` of `concat_hash_len`;
`indexError`, `noneError` and `codecError` stand for the python
`IndexError`, `TypeError`/`AttributeError` on `None`, and errors
propagated from the codec engine. -/
inductive StorageError where
  | storageFunctionNotFound (msg : String)
  | missingHasher (paramNo : Nat)
  | unknownHasher (name : String)
  | unsupportedHashType
  | indexError
  | noneError
  | codecError
deriving DecidableEq

/-- The `StorageKey` instance state: every attribute `__init__` sets. -/
structure StorageKey where
  pallet : Option String
  storage_function : Option String
  params : Option (List Param)
  params_encoded : List Bytes
  data : Option Bytes
  value_scale_type : Option ScaleTypeDef
  param_scale_types : Option (List ScaleTypeDef)
  param_hashers : Option (List (Option String))
  metadata_storage_function : Option StorageFunctionMd
  metadata : Metadata

/-- `StorageKey.__init__`: `params_encoded` starts empty, `param_hashers`
and `metadata_storage_function` start as `None`. -/
def StorageKey.init (pallet storage_function : Option String) (params : Option (List Param))
    (data : Option Bytes) (value_scale_type : Option ScaleTypeDef)
    (param_scale_types : Option (List ScaleTypeDef)) (metadata : Metadata) : StorageKey :=
  { pallet := pallet
    storage_function := storage_function
    params := params
    params_encoded := []
    data := data
    value_scale_type := value_scale_type
    param_scale_types := param_scale_types
    param_hashers := none
    metadata_storage_function := none
    metadata := metadata }

/-- Python truthiness of an optional string: `None` and the empty string
are falsy. -/
def truthy : Option String → Bool
  | some s => s != ""
  | none => false

/-- Python truthiness of an optional byte string: `None` and empty bytes
are falsy. -/
def truthyBytes : Option Bytes → Bool
  | some bs => !bs.isEmpty
  | none => false

/-- The effective hasher name for one parameter slot:
`if not param_hasher: param_hasher = 'Twox128'` in `generate`, so an absent
entry or an empty string falls back to the default `Twox128`. -/
def hasherName : Option String → String
  | none => "Twox128"
  | some n => if n = "" then "Twox128" else n

/-- The `if/elif` hasher dispatch chain of `generate`, in source order;
`none` is the final `else` that raises
`ValueError('Unknown storage hasher ...')`. -/
def hasherTransform (H : Hashers) (name : String) (b : Bytes) : Option Bytes :=
  if name = "Blake2_256" then some (H.blake2_256 b)
  else if name = "Blake2_128" then some (H.blake2_128 b)
  else if name = "Blake2_128Concat" then some (blake2_128_concat H b)
  else if name = "Twox128" then some (H.xxh128 b)
  else if name = "Twox64Concat" then some (two_x64_concat H b)
  else if name = "Identity" then some (identity b)
  else none

/-- The recognized hasher names, i.e. exactly those on which
`hasherTransform` succeeds. -/
def recognizedHasher (name : String) : Bool :=
  name == "Blake2_256" || name == "Blake2_128" || name == "Blake2_128Concat" ||
  name == "Twox128" || name == "Twox64Concat" || name == "Identity"

/-- The first parameter loop of `generate`: a pre-encoded `ScaleBytes`
parameter is appended as is, a native parameter is encoded through
`self.param_scale_types[idx]` (python raises `IndexError` when that index
is out of range, and a codec error when encoding fails).  Python appends to
`self.params_encoded` one element at a time, so on failure the error
carries the list of encodings produced so far. -/
def encodeParamsLoop (types : List ScaleTypeDef) (idx : Nat) (acc : List Bytes) :
    List Param → Except (StorageError × List Bytes) (List Bytes)
  | [] => .ok acc
  | .scaleBytes bs :: rest => encodeParamsLoop types (idx + 1) (acc ++ [bs]) rest
  | .native v :: rest =>
    match types[idx]? with
    | none => .error (.indexError, acc)
    | some t =>
      match t.encode v with
      | none => .error (.codecError, acc)
      | some bs => encodeParamsLoop types (idx + 1) (acc ++ [bs]) rest

/-- The second parameter loop of `generate`: look up
`self.param_hashers[idx]` (an `IndexError` becomes
`ValueError('No hasher found for param #...')` with the 1-based parameter
number), fall back to `Twox128` for a falsy entry, dispatch the transform
and append its output to the running key buffer. -/
def hashParamsLoop (H : Hashers) (hashers : List (Option String)) (idx : Nat) (acc : Bytes) :
    List Bytes → Except StorageError Bytes
  | [] => .ok acc
  | b :: rest =>
    match hashers[idx]? with
    | none => .error (.missingHasher (idx + 1))
    | some h0 =>
      let name := hasherName h0
      match hasherTransform H name b with
      | none => .error (.unknownHasher name)
      | some out => hashParamsLoop H hashers (idx + 1) (acc ++ out) rest

/-- `StorageKey.generate`, translated step by step.  Each python assignment
to `self` becomes a record update; the error value carries the record as
mutated up to the raise, the success value carries the final record
together with the returned key bytes. -/
def StorageKey.generate (H : Hashers) (s : StorageKey) :
    Except (StorageError × StorageKey) (StorageKey × Bytes) :=
  match s.metadata.get_metadata_pallet s.pallet with
  | none => .error (.storageFunctionNotFound "Pallet not found", s)
  | some metadata_pallet =>
    let msf? := match s.storage_function with
      | none => none
      | some fname => metadata_pallet.get_storage_function fname
    let s1 := { s with metadata_storage_function := msf? }
    match msf? with
    | none => .error (.storageFunctionNotFound "Storage function not found", s1)
    | some msf =>
      let param_scale_types := resolveParamTypes msf.param_types
      let s4 := { s1 with
        value_scale_type := some msf.value_type
        param_scale_types := some param_scale_types
        param_hashers := some msf.param_hashers }
      let fname_bytes := match s.storage_function with
        | some f => strBytes f
        | none => []
      let storage_hash0 :=
        H.xxh128 (strBytes metadata_pallet.storage_prefix_str) ++ H.xxh128 fname_bytes
      let s5 := { s4 with params_encoded := [] }
      match s.params with
      | none => .ok ({ s5 with data := some storage_hash0 }, storage_hash0)
      | some ps =>
        if ps.isEmpty then
          .ok ({ s5 with data := some storage_hash0 }, storage_hash0)
        else
          match encodeParamsLoop param_scale_types 0 [] ps with
          | .error (e, partialEncs) => .error (e, { s5 with params_encoded := partialEncs })
          | .ok encs =>
            let s6 := { s5 with params_encoded := encs }
            match hashParamsLoop H msf.param_hashers 0 storage_hash0 encs with
            | .error e => .error (e, s6)
            | .ok key => .ok ({ s6 with data := some key }, key)

/-- `StorageKey.create_from_data`: when no value-type hint is given but
both a pallet and a storage-function name are, the value type is resolved
eagerly against the metadata (raising `StorageFunctionNotFound` on a
failed lookup); otherwise the hint (possibly `None`) is stored as is and
the instance is built with `params=None` and the raw key bytes as `data`. -/
def StorageKey.create_from_data (data : Bytes) (metadata : Metadata)
    (value_scale_type : Option ScaleTypeDef) (pallet storage_function : Option String) :
    Except StorageError StorageKey :=
  if !value_scale_type.isSome && truthy pallet && truthy storage_function then
    match metadata.get_metadata_pallet pallet with
    | none => .error (.storageFunctionNotFound "Pallet not found")
    | some metadata_pallet =>
      let storage_item? := match storage_function with
        | some f => metadata_pallet.get_storage_function f
        | none => none
      match storage_item? with
      | none => .error (.storageFunctionNotFound "Storage function not found")
      | some storage_item =>
        .ok (StorageKey.init pallet storage_function none (some data)
          (some storage_item.value_type) none metadata)
  else
    .ok (StorageKey.init pallet storage_function none (some data)
      value_scale_type none metadata)

/-- `StorageKey.create_from_storage_function`: build the instance and run
`generate` on it eagerly, returning the (mutated) instance. -/
def StorageKey.create_from_storage_function (H : Hashers) (pallet storage_function : String)
    (params : List Param) (metadata : Metadata) :
    Except (StorageError × StorageKey) StorageKey :=
  let s := StorageKey.init (some pallet) (some storage_function) (some params)
    none none none metadata
  match s.generate H with
  | .error e => .error e
  | .ok (s', _) => .ok s'

/-- The loop of `create_key_type_def`:
`for n in range(param_count, len(self.param_scale_types))` appends
`Array(U8, concat_hash_len(self.param_hashers[n]))` and the parameter's
type; the iteration is over the parameter types from `param_count` on
(passed as the dropped list) while `n` indexes the hasher list absolutely —
an out-of-range hasher index is a python `IndexError`, an unsupported hash
kind the `ValueError` of `concat_hash_len`. -/
def keyItemsLoop (hashers : List (Option String)) (n : Nat) :
    List ScaleTypeDef → Except StorageError (List ScaleTypeDef)
  | [] => .ok []
  | t :: trest =>
    match hashers[n]? with
    | none => .error .indexError
    | some hname =>
      match concat_hash_len hname with
      | none => .error .unsupportedHashType
      | some len =>
        match keyItemsLoop hashers (n + 1) trest with
        | .error e => .error e
        | .ok rest => .ok (ArrayDef len :: t :: rest)

/-- `StorageKey.create_key_type_def`: the composite key-tail type, a
`Tuple` alternating a fixed raw block and the declared parameter type for
every parameter from `param_count` on.  Using it before the parameter
types and hashers are resolved is a python error on `None`. -/
def StorageKey.create_key_type_def (s : StorageKey) (param_count : Nat) :
    Except StorageError ScaleTypeDef :=
  match s.param_scale_types, s.param_hashers with
  | some types, some hashers =>
    match keyItemsLoop hashers param_count (types.drop param_count) with
    | .error e => .error e
    | .ok items => .ok (TupleDef items)
  | _, _ => .error .noneError

/-- One hex digit. -/
def hexDigit (n : Nat) : String :=
  match n with
  | 0 => "0" | 1 => "1" | 2 => "2" | 3 => "3" | 4 => "4" | 5 => "5" | 6 => "6" | 7 => "7"
  | 8 => "8" | 9 => "9" | 10 => "a" | 11 => "b" | 12 => "c" | 13 => "d" | 14 => "e"
  | _ => "f"

/-- Lowercase hex rendering of one byte, two digits. -/
def byteToHex (b : Nat) : String := hexDigit (b % 256 / 16) ++ hexDigit (b % 16)

/-- Lowercase hex rendering of a byte string, `bytes.hex()`. -/
def bytesToHex : Bytes → String
  | [] => ""
  | b :: rest => byteToHex b ++ bytesToHex rest

/-- `StorageKey.to_hex`: hex representation of the key data when it is
truthy, python `None` otherwise. -/
def StorageKey.to_hex (s : StorageKey) : Option String :=
  match s.data with
  | some d => if d.isEmpty then none else some ("0x" ++ bytesToHex d)
  | none => none

/-- `StorageKey.decode_key_data`: build the key-tail type for parameters
from `param_count` on and decode it from the bytes of the given full key
that follow this instance's own key data (the source slices the hex string
at `len(self.to_hex())`, i.e. skips `self.data` plus the `0x` marker,
which at the byte level is a drop of `self.data` many bytes; a falsy
`self.data` makes `to_hex` return python `None` and the slice raise). -/
def StorageKey.decode_key_data (s : StorageKey) (fullKey : Bytes) (param_count : Nat) :
    Except StorageError ScaleValue :=
  match s.create_key_type_def param_count with
  | .error e => .error e
  | .ok keyType =>
    match s.data with
    | none => .error .noneError
    | some d =>
      if d.isEmpty then .error .noneError
      else
        match keyType.decode (fullKey.drop d.length) with
        | none => .error .codecError
        | some (v, _) => .ok v

/-- `StorageKey.decode_scale_value`: with data present decode it as the
value type with `result_found = True`; with data absent and modifier
`'Default'` decode the storage function's default bytes as the value type;
otherwise decode the default bytes through `Option(value_type)`.  In both
absent-data branches `result_found` keeps its initial value `False`.
Touching an unresolved `metadata_storage_function` or value type is a
python error on `None`. -/
def StorageKey.decode_scale_value (s : StorageKey) (data? : Option Bytes) :
    Except StorageError (ScaleValue × Bool) :=
  let branch : Except StorageError (ScaleTypeDef × Bytes × Bool) :=
    match data? with
    | some d =>
      match s.value_scale_type with
      | none => .error .noneError
      | some vt => .ok (vt, d, true)
    | none =>
      match s.metadata_storage_function with
      | none => .error .noneError
      | some msf =>
        if msf.modifier = "Default" then
          match s.value_scale_type with
          | none => .error .noneError
          | some vt => .ok (vt, msf.default_bytes, false)
        else
          .ok (OptionDefOf s.value_scale_type, msf.default_bytes, false)
  match branch with
  | .error e => .error e
  | .ok (t, bytes, found) =>
    match t.decode bytes with
    | none => .error .codecError
    | some (v, _) => .ok (v, found)

/-- Rendering of the parameter list used inside `__repr__`. -/
def paramText : Param → String
  | .scaleBytes bs => "0x" ++ bytesToHex bs
  | .native _ => "value"

/-- `StorageKey.__repr__`, with an explicit fuel argument: the source
returns a pallet/function line when both names are truthy, a data line
when the key data is truthy, and otherwise evaluates `repr(self)` on the
unchanged instance — an unbounded self-recursion, which the fuel makes
observable: the recursive branch consumes fuel and `none` means no string
is ever produced. -/
def StorageKey.reprFuel (s : StorageKey) : Nat → Option String
  | 0 => none
  | fuel + 1 =>
    if truthy s.pallet && truthy s.storage_function then
      some ("<StorageKey(pallet=" ++ s.pallet.getD "" ++ ", storage_function=" ++
        s.storage_function.getD "" ++ ", params=" ++
        String.intercalate ", " (((s.params.getD []).map paramText)) ++ ")>")
    else if truthyBytes s.data then
      some ("<StorageKey(data=0x" ++ bytesToHex (s.data.getD []) ++ ")>")
    else
      StorageKey.reprFuel s fuel

/-- Per-parameter transform outputs: the same hasher lookup and dispatch as
`hashParamsLoop`, but keeping the per-parameter segments separate instead
of appending them to a running buffer (`idx` only feeds the 1-based
parameter number of the missing-hasher error). -/
def hashSegs (H : Hashers) (idx : Nat) :
    List (Option String) → List Bytes → Except StorageError (List Bytes)
  | _, [] => .ok []
  | [], _ :: _ => .error (.missingHasher (idx + 1))
  | h0 :: hrest, b :: brest =>
    match hasherTransform H (hasherName h0) b with
    | none => .error (.unknownHasher (hasherName h0))
    | some out =>
      match hashSegs H (idx + 1) hrest brest with
      | .error e => .error e
      | .ok segs => .ok (out :: segs)

/-- The wire format exactly as the spec states it: the 16-byte hash of the
module's storage-prefix string, then the 16-byte hash of the function-name
string, then each parameter's hash-transform output in parameter order,
with no length marker, padding or delimiter. -/
def specKey (H : Hashers) (storagePrefixString functionName : String)
    (segments : List Bytes) : Bytes :=
  H.xxh128 (strBytes storagePrefixString) ++ H.xxh128 (strBytes functionName) ++ segments.flatten

/-- The instance state a successful `generate` leaves behind: the read
fields are untouched and every resolution field is overwritten with a
value computed from them. -/
def resolvedState (s : StorageKey) (msf : StorageFunctionMd) (encs : List Bytes)
    (key : Bytes) : StorageKey :=
  { s with
    metadata_storage_function := some msf
    value_scale_type := some msf.value_type
    param_scale_types := some (resolveParamTypes msf.param_types)
    param_hashers := some msf.param_hashers
    params_encoded := encs
    data := some key }

/-- Elementwise encoding of a parameter list: each native value encodes
through the aligned type descriptor to the aligned byte string. -/
def EncodesTo : List ScaleTypeDef → List ScaleValue → List Bytes → Prop
  | [], [], [] => True
  | t :: ts, v :: vs, e :: es => t.encode v = some e ∧ EncodesTo ts vs es
  | _, _, _ => False

/-- The parameter slots of a decoded key-tail tuple: `create_key_type_def`
alternates a raw block and a parameter type, so the decoded parameter
values sit at the odd positions. -/
def oddSlots : List ScaleValue → List ScaleValue
  | _ :: v :: rest => v :: oddSlots rest
  | _ => []

/-- A prefix-correct codec: the descriptor decodes back exactly what it
encodes, leaving any trailing bytes untouched. -/
def PrefixRoundtrip (t : ScaleTypeDef) : Prop :=
  ∀ v bs rest, t.encode v = some bs → t.decode (bs ++ rest) = some (v, rest)

/-- The hash kinds whose transform keeps the original input bytes as a
suffix of its output. -/
def concatKind : Option String → Bool
  | some n => n == "Blake2_128Concat" || n == "Twox64Concat" || n == "Identity"
  | none => false

/-- Concrete hash primitives used to exercise the theorems on closed
inputs: constant digests of the contractual lengths. -/
def H0 : Hashers where
  blake2_256 := fun _ => List.replicate 32 9
  blake2_128 := fun _ => List.replicate 16 1
  xxh128 := fun _ => List.replicate 16 2
  xxh64 := fun _ => List.replicate 8 3

/-- Storage function fixture: two-parameter map, concatenating hashers,
`Default` modifier with default byte `0x2a`. -/
def msfF : StorageFunctionMd where
  name := "F"
  value_type := U8
  param_types := some (.tupleOf [U8, U8])
  param_hashers := [some "Blake2_128Concat", some "Identity"]
  modifier := "Default"
  default_bytes := [42]

/-- Storage function fixture: two-parameter map hashed with `Twox128` and
`Twox64Concat`. -/
def msfG : StorageFunctionMd where
  name := "G"
  value_type := U8
  param_types := some (.tupleOf [U8, U8])
  param_hashers := [some "Twox128", some "Twox64Concat"]
  modifier := "Default"
  default_bytes := [42]

/-- Storage function fixture: `Optional` modifier with the empty-optional
default encoding `0x00`. -/
def msfOpt : StorageFunctionMd where
  name := "OptF"
  value_type := U8
  param_types := none
  param_hashers := []
  modifier := "Optional"
  default_bytes := [0]

/-- Storage function fixture: a hasher name outside the recognized set. -/
def msfBad : StorageFunctionMd where
  name := "Bad"
  value_type := U8
  param_types := some (.single U8)
  param_hashers := [some "Foo"]
  modifier := "Default"
  default_bytes := [42]

/-- Storage function fixture: two declared parameters but only one
declared hasher. -/
def msfNoHash : StorageFunctionMd where
  name := "NoHash"
  value_type := U8
  param_types := some (.tupleOf [U8, U8])
  param_hashers := [some "Twox128"]
  modifier := "Default"
  default_bytes := [42]

/-- Storage function fixture: hasher slots declared but left empty or
absent. -/
def msfDefH : StorageFunctionMd where
  name := "DefH"
  value_type := U8
  param_types := some (.tupleOf [U8, U8])
  param_hashers := [some "", none]
  modifier := "Default"
  default_bytes := [42]

/-- Pallet fixture `P` with storage prefix `PP` holding the storage
function fixtures. -/
def palletP : PalletMd := ⟨"P", "PP", [msfF, msfG, msfOpt, msfBad, msfNoHash, msfDefH]⟩

/-- Metadata fixture: the single pallet `P`. -/
def mdW : Metadata := ⟨[palletP]⟩

/-- A fully resolved instance for the `Default`-modifier decode scenarios:
value type `U8`, default bytes `0x2a`. -/
def sC1 : StorageKey :=
  { StorageKey.init (some "P") (some "F") none none (some U8) none mdW with
    metadata_storage_function := some msfF }

/-- A fully resolved instance for the `Optional`-modifier decode
scenarios: value type `U8`, default bytes `0x00`. -/
def sC4 : StorageKey :=
  { StorageKey.init (some "P") (some "OptF") none none (some U8) none mdW with
    metadata_storage_function := some msfOpt }

/-- An instance addressing the function with the unrecognized hasher name,
with one native parameter. -/
def sC6 : StorageKey :=
  StorageKey.init (some "P") (some "Bad") (some [.native (.nat 1)]) none none none mdW

/-- An instance with neither a truthy symbolic address nor truthy key
data. -/
def sNoRepr : StorageKey :=
  StorageKey.init none none none none none none mdW

/-- An instance addressing the function with two parameters but a single
declared hasher. -/
def sNoHash : StorageKey :=
  StorageKey.init (some "P") (some "NoHash")
    (some [.native (.nat 5), .native (.nat 7)]) none none none mdW

/-- An instance addressing the function whose hasher slots are empty or
absent. -/
def sDefH : StorageKey :=
  StorageKey.init (some "P") (some "DefH")
    (some [.native (.nat 5), .native (.nat 7)]) none none none mdW

/-- The structural form of the `create_key_type_def` loop once the leading
`param_count` entries have been dropped: pairs each remaining parameter
type with its hasher's raw-block length; a parameter type without an
aligned hasher entry is the python `IndexError`, extra hasher entries
beyond the types are ignored because the loop is bounded by the type
count. -/
def keyItemsTail : List (Option String) → List ScaleTypeDef → Except StorageError (List ScaleTypeDef)
  | _, [] => .ok []
  | [], _ :: _ => .error .indexError
  | h0 :: hrest, t :: trest =>
    match concat_hash_len h0 with
    | none => .error .unsupportedHashType
    | some len =>
      match keyItemsTail hrest trest with
      | .error e => .error e
      | .ok rest => .ok (ArrayDef len :: t :: rest)

/-- The instance state at the moment the hashing loop of `generate`
raises: type and hasher resolution and the parameter encodings are already
committed to the instance, while `data` is untouched. -/
def hashFailState (s : StorageKey) (msf : StorageFunctionMd) (encs : List Bytes) : StorageKey :=
  { s with
    metadata_storage_function := some msf
    value_scale_type := some msf.value_type
    param_scale_types := some (resolveParamTypes msf.param_types)
    param_hashers := some msf.param_hashers
    params_encoded := encs }

theorem drop_eq_cons_of_getElem? {α : Type} (l : List α) (n : Nat) (a : α)
    (h : l[n]? = some a) : l.drop n = a :: l.drop (n + 1) := by
  have hn : n < l.length := by
    by_contra hc
    rw [List.getElem?_eq_none (by omega)] at h
    exact Option.noConfusion h
  have := List.drop_eq_getElem_cons hn
  rw [this]
  have : l[n] = a := by
    have := List.getElem?_eq_getElem hn
    rw [this] at h
    exact Option.some.inj h
  rw [this]

theorem drop_eq_nil_of_getElem?_none {α : Type} (l : List α) (n : Nat)
    (h : l[n]? = none) : l.drop n = [] := by
  apply List.drop_eq_nil_of_le
  by_contra hc
  rw [List.getElem?_eq_getElem (by omega)] at h
  exact Option.noConfusion h

/-- `hashParamsLoop` computes the concatenation of the per-parameter
segments of `hashSegs`, appended to the running buffer. -/
theorem hashParamsLoop_eq_hashSegs (H : Hashers) (bs : List Bytes) :
    ∀ (hashers : List (Option String)) (idx : Nat) (acc : Bytes),
    hashParamsLoop H hashers idx acc bs =
      match hashSegs H idx (hashers.drop idx) bs with
      | .error e => .error e
      | .ok segs => .ok (acc ++ segs.flatten) := by
  induction bs with
  | nil => intro hashers idx acc; simp [hashParamsLoop, hashSegs]
  | cons b rest ih =>
    intro hashers idx acc
    unfold hashParamsLoop
    cases hidx : hashers[idx]? with
    | none =>
      rw [drop_eq_nil_of_getElem?_none hashers idx hidx]
      simp [hashSegs]
    | some h0 =>
      rw [drop_eq_cons_of_getElem? hashers idx h0 hidx]
      cases ht : hasherTransform H (hasherName h0) b with
      | none => simp [hashSegs, ht]
      | some out =>
        simp only [hashSegs, ht]
        rw [ih hashers (idx + 1) (acc ++ out)]
        cases hs : hashSegs H (idx + 1) (hashers.drop (idx + 1)) rest with
        | error e => simp
        | ok segs => simp

theorem encodesTo_length {ts : List ScaleTypeDef} {vs : List ScaleValue} {es : List Bytes}
    (h : EncodesTo ts vs es) : vs.length = es.length ∧ vs.length = ts.length := by
  induction ts generalizing vs es with
  | nil => cases vs <;> cases es <;> simp_all [EncodesTo]
  | cons t ts ih =>
    cases vs with
    | nil => cases es <;> simp_all [EncodesTo]
    | cons v vs =>
      cases es with
      | nil => simp_all [EncodesTo]
      | cons e es =>
        obtain ⟨h1, h2⟩ := h
        have := ih h2
        simp [List.length_cons]
        omega

/-- The first parameter loop succeeds on native parameters that encode
elementwise, producing exactly the elementwise encodings. -/
theorem encodeParamsLoop_of_encodesTo (ts : List ScaleTypeDef) :
    ∀ (vs : List ScaleValue) (es : List Bytes) (idx : Nat) (acc : List Bytes),
    EncodesTo (ts.drop idx) vs es →
    encodeParamsLoop ts idx acc (vs.map .native) = .ok (acc ++ es) := by
  intro vs
  induction vs with
  | nil =>
    intro es idx acc h
    cases es with
    | nil => simp [encodeParamsLoop]
    | cons e es => cases hd : ts.drop idx <;> simp_all [EncodesTo]
  | cons v vs ih =>
    intro es idx acc h
    cases hd : ts.drop idx with
    | nil => rw [hd] at h; simp [EncodesTo] at h
    | cons t trest =>
      rw [hd] at h
      cases es with
      | nil => simp [EncodesTo] at h
      | cons e es =>
        obtain ⟨h1, h2⟩ := h
        have hidx : ts[idx]? = some t := by
          have hlt : idx < ts.length := by
            by_contra hc
            rw [List.drop_eq_nil_of_le (by omega)] at hd
            exact List.noConfusion hd
          rw [List.getElem?_eq_getElem hlt]
          have := List.drop_eq_getElem_cons hlt
          rw [this] at hd
          exact congrArg some (List.head_eq_of_cons_eq hd.symm).symm
        have hdrest : ts.drop (idx + 1) = trest := by
          have := drop_eq_cons_of_getElem? ts idx t hidx
          rw [this] at hd
          exact (List.tail_eq_of_cons_eq hd.symm).symm
        simp only [List.map_cons, encodeParamsLoop, hidx, h1]
        rw [ih es (idx + 1) (acc ++ [e]) (by rw [hdrest]; exact h2)]
        simp

/-- The success path of `generate` with an explicit parameter list: under
the stated resolutions the final instance is `resolvedState` and the key is
the returned hash buffer. -/
theorem generate_ok_eq (H : Hashers) (s : StorageKey) (pm : PalletMd)
    (msf : StorageFunctionMd) (fn : String) (ps : List Param) (encs : List Bytes) (key : Bytes)
    (hp : s.metadata.get_metadata_pallet s.pallet = some pm)
    (hfn : s.storage_function = some fn)
    (hf : pm.get_storage_function fn = some msf)
    (hps : s.params = some ps)
    (henc : encodeParamsLoop (resolveParamTypes msf.param_types) 0 [] ps = .ok encs)
    (hkey : hashParamsLoop H msf.param_hashers 0
      (H.xxh128 (strBytes pm.storage_prefix_str) ++ H.xxh128 (strBytes fn)) encs = .ok key) :
    s.generate H = .ok (resolvedState s msf encs key, key) := by
  unfold StorageKey.generate
  rw [hp]
  simp only [hfn, hf, hps]
  by_cases hpe : ps.isEmpty
  · have hps0 : ps = [] := List.isEmpty_iff.mp hpe
    subst hps0
    simp only [encodeParamsLoop] at henc
    have hencs : encs = [] := (Except.ok.inj henc).symm
    subst hencs
    simp only [hashParamsLoop] at hkey
    have hk := Except.ok.inj hkey
    simp [hpe, resolvedState, ← hk]
    exact ⟨hfn.symm, hps.symm⟩
  · simp only [hpe, Bool.false_eq_true, if_false, henc, hkey]
    simp [resolvedState]
    exact ⟨hfn.symm, hps.symm⟩

/-- The success path of `generate` with `params=None`: the parameter loops
are skipped and the key is the 32-byte prefix. -/
theorem generate_ok_none (H : Hashers) (s : StorageKey) (pm : PalletMd)
    (msf : StorageFunctionMd) (fn : String)
    (hp : s.metadata.get_metadata_pallet s.pallet = some pm)
    (hfn : s.storage_function = some fn)
    (hf : pm.get_storage_function fn = some msf)
    (hps : s.params = none) :
    s.generate H = .ok (resolvedState s msf []
      (H.xxh128 (strBytes pm.storage_prefix_str) ++ H.xxh128 (strBytes fn)),
      H.xxh128 (strBytes pm.storage_prefix_str) ++ H.xxh128 (strBytes fn)) := by
  unfold StorageKey.generate
  rw [hp]
  simp only [hfn, hf, hps]
  simp [resolvedState]
  exact ⟨hfn.symm, hps.symm⟩

theorem hashSegs_nil (H : Hashers) (idx : Nat) (hashers : List (Option String)) :
    hashSegs H idx hashers [] = .ok [] := by
  cases hashers <;> rfl

/-- The key returned by a successful `generate` on a symbolic address with
parameter list `ps`, in terms of the per-parameter segments. -/
theorem generate_ok_segments (H : Hashers) (md : Metadata) (pn fn : String)
    (pm : PalletMd) (msf : StorageFunctionMd) (ps : List Param) (encs segs : List Bytes)
    (hp : md.get_metadata_pallet (some pn) = some pm)
    (hf : pm.get_storage_function fn = some msf)
    (henc : encodeParamsLoop (resolveParamTypes msf.param_types) 0 [] ps = .ok encs)
    (hsegs : hashSegs H 0 msf.param_hashers encs = .ok segs) :
    (StorageKey.init (some pn) (some fn) (some ps) none none none md).generate H =
      .ok (resolvedState (StorageKey.init (some pn) (some fn) (some ps) none none none md)
        msf encs
        (H.xxh128 (strBytes pm.storage_prefix_str) ++ H.xxh128 (strBytes fn) ++ segs.flatten),
        H.xxh128 (strBytes pm.storage_prefix_str) ++ H.xxh128 (strBytes fn) ++ segs.flatten) := by
  have hkey : hashParamsLoop H msf.param_hashers 0
      (H.xxh128 (strBytes pm.storage_prefix_str) ++ H.xxh128 (strBytes fn)) encs =
      .ok (H.xxh128 (strBytes pm.storage_prefix_str) ++ H.xxh128 (strBytes fn) ++ segs.flatten) := by
    rw [hashParamsLoop_eq_hashSegs]
    rw [List.drop_zero, hsegs]
  exact generate_ok_eq H _ pm msf fn ps encs _ hp rfl hf rfl henc hkey

/-- C2: for every fully symbolic address that resolves against the
metadata, `generate` produces exactly the spec's wire format: 16-byte hash
of the module storage-prefix string, 16-byte hash of the function name,
then each parameter's transform output in order, nothing shortened,
reordered, padded or delimited; with zero parameters the key is exactly
32 bytes, and with two parameters hashed `Twox128` and `Twox64Concat` the
key length is `32 + 16 + (8 + len(encoded second parameter))`. -/
theorem generate_wire_format (H : Hashers)
    (h128 : ∀ b, (H.xxh128 b).length = 16)
    (h64 : ∀ b, (H.xxh64 b).length = 8) :
    (∀ (md : Metadata) (pn fn : String) (pm : PalletMd) (msf : StorageFunctionMd)
        (ps : List Param) (encs segs : List Bytes),
      md.get_metadata_pallet (some pn) = some pm →
      pm.get_storage_function fn = some msf →
      encodeParamsLoop (resolveParamTypes msf.param_types) 0 [] ps = .ok encs →
      hashSegs H 0 msf.param_hashers encs = .ok segs →
      ∃ s', (StorageKey.init (some pn) (some fn) (some ps) none none none md).generate H
        = .ok (s', specKey H pm.storage_prefix_str fn segs)) ∧
    (∀ (md : Metadata) (pn fn : String) (pm : PalletMd) (msf : StorageFunctionMd),
      md.get_metadata_pallet (some pn) = some pm →
      pm.get_storage_function fn = some msf →
      ∃ s' key, (StorageKey.init (some pn) (some fn) (some []) none none none md).generate H
        = .ok (s', key) ∧ key.length = 32) ∧
    (∀ (md : Metadata) (pn fn : String) (pm : PalletMd) (msf : StorageFunctionMd)
        (t1 t2 : ScaleTypeDef) (v1 v2 : ScaleValue) (e1 e2 : Bytes),
      md.get_metadata_pallet (some pn) = some pm →
      pm.get_storage_function fn = some msf →
      resolveParamTypes msf.param_types = [t1, t2] →
      msf.param_hashers = [some "Twox128", some "Twox64Concat"] →
      t1.encode v1 = some e1 → t2.encode v2 = some e2 →
      ∃ s' key,
        (StorageKey.init (some pn) (some fn) (some [.native v1, .native v2])
          none none none md).generate H = .ok (s', key) ∧
        key.length = 32 + 16 + (8 + e2.length)) := by
  refine ⟨?_, ?_, ?_⟩
  · intro md pn fn pm msf ps encs segs hp hf henc hsegs
    refine ⟨resolvedState (StorageKey.init (some pn) (some fn) (some ps) none none none md)
      msf encs
      (H.xxh128 (strBytes pm.storage_prefix_str) ++ H.xxh128 (strBytes fn) ++ segs.flatten), ?_⟩
    rw [generate_ok_segments H md pn fn pm msf ps encs segs hp hf henc hsegs]
    simp [specKey, List.append_assoc]
  · intro md pn fn pm msf hp hf
    have hgen := generate_ok_segments H md pn fn pm msf [] [] [] hp hf rfl
      (hashSegs_nil H 0 msf.param_hashers)
    refine ⟨_, _, hgen, ?_⟩
    simp [List.length_append, h128]
  · intro md pn fn pm msf t1 t2 v1 v2 e1 e2 hp hf hts hhs he1 he2
    have henc : encodeParamsLoop (resolveParamTypes msf.param_types) 0 []
        ([v1, v2].map Param.native) = .ok ([] ++ [e1, e2]) := by
      apply encodeParamsLoop_of_encodesTo
      rw [List.drop_zero, hts]
      exact ⟨he1, he2, trivial⟩
    simp only [List.map_cons, List.map_nil, List.nil_append] at henc
    have hsegs : hashSegs H 0 msf.param_hashers [e1, e2] =
        .ok [H.xxh128 e1, two_x64_concat H e2] := by
      rw [hhs]
      simp [hashSegs, hasherName, hasherTransform]
    have hgen := generate_ok_segments H md pn fn pm msf [.native v1, .native v2]
      [e1, e2] [H.xxh128 e1, two_x64_concat H e2] hp hf henc hsegs
    refine ⟨_, _, hgen, ?_⟩
    simp [List.length_append, h128, h64, two_x64_concat]
    omega

/-- Witness: the wire-format theorem applied to the concrete hashers `H0`
and the fixture metadata, zero-parameter conjunct. -/
theorem generate_wire_format_witness :
    ∃ s' key,
      (StorageKey.init (some "P") (some "F") (some []) none none none mdW).generate H0 =
        .ok (s', key) ∧ key.length = 32 :=
  (generate_wire_format H0 (fun _ => rfl) (fun _ => rfl)).2.1 mdW "P" "F" palletP msfF
    rfl rfl

/-- C1 as written fails on the code: with modifier `Default` and absent
data the declared default bytes `0x2a` decode as the declared 8-bit value
type to `42`, but the found flag is `false`, not `true` — `result_found`
is only ever set on the data-present branch. -/
theorem decode_default_counterexample :
    sC1.decode_scale_value none = .ok (.nat 42, false) ∧
    sC1.decode_scale_value none ≠ .ok (.nat 42, true) := by
  refine ⟨rfl, ?_⟩
  intro h
  rw [show sC1.decode_scale_value none = .ok (.nat 42, false) from rfl] at h
  exact Bool.noConfusion (congrArg Prod.snd (Except.ok.inj h))

/-- C1 amended: for every resolved instance whose storage function has the
`Default` modifier, `decode_scale_value` on absent data decodes the
declared default bytes as the declared value type and returns the found
flag `false`. -/
theorem decode_default_found_false (s : StorageKey) (msf : StorageFunctionMd)
    (vt : ScaleTypeDef) (v : ScaleValue) (rest : Bytes)
    (hm : s.metadata_storage_function = some msf)
    (hmod : msf.modifier = "Default")
    (hv : s.value_scale_type = some vt)
    (hd : vt.decode msf.default_bytes = some (v, rest)) :
    s.decode_scale_value none = .ok (v, false) := by
  simp [StorageKey.decode_scale_value, hm, hmod, hv, hd]

/-- Witness: the amended C1 theorem applied to the concrete fixture with
default byte `0x2a` and value type `U8`. -/
theorem decode_default_found_false_witness :
    sC1.decode_scale_value none = .ok (.nat 42, false) :=
  decode_default_found_false sC1 msfF U8 (.nat 42) [] rfl rfl rfl rfl

/-- C4: for every resolved instance whose storage function modifier is not
`Default`, `decode_scale_value` on absent data wraps the declared value
type in `Option(...)`, decodes the declared default bytes through it, and
returns the found flag `false`; with default bytes `0x00` the result is
`(None, false)`. -/
theorem decode_optional_absent (s : StorageKey) (msf : StorageFunctionMd) (vt : ScaleTypeDef)
    (hm : s.metadata_storage_function = some msf)
    (hmod : msf.modifier ≠ "Default")
    (hv : s.value_scale_type = some vt) :
    (∀ v rest, (OptionDef vt).decode msf.default_bytes = some (v, rest) →
      s.decode_scale_value none = .ok (v, false)) ∧
    (msf.default_bytes = [0] → s.decode_scale_value none = .ok (.noneVal, false)) := by
  constructor
  · intro v rest hd
    rw [OptionDef] at hd
    simp [StorageKey.decode_scale_value, hm, hmod, hv, hd]
  · intro hdef
    simp [StorageKey.decode_scale_value, hm, hmod, hv, hdef, OptionDefOf]

/-- Witness: the C4 theorem applied to the `Optional` fixture with default
bytes `0x00`. -/
theorem decode_optional_absent_witness :
    sC4.decode_scale_value none = .ok (.noneVal, false) :=
  (decode_optional_absent sC4 msfOpt U8 rfl (by decide) rfl).2 rfl

/-- C9 as written fails on the code: raw-bytes construction with no
value-type hint but a pallet and a storage-function name performs an eager
metadata lookup at construction time and raises when the pallet is
absent. -/
theorem create_from_data_counterexample :
    StorageKey.create_from_data [0] mdW none (some "X") (some "Y") =
      .error (.storageFunctionNotFound "Pallet not found") := rfl

/-- C9 amended: construction from raw key bytes defers type resolution
whenever a value-type hint is supplied or the pallet or the function name
is missing/empty — in that case the instance is returned unconditionally
for every metadata registry, with the hint stored as is and no lookup
performed; only the no-hint, both-names-present combination resolves
eagerly and can raise. -/
theorem create_from_data_deferred (data : Bytes) (vst : Option ScaleTypeDef)
    (pallet storage_function : Option String)
    (h : vst.isSome = true ∨ truthy pallet = false ∨ truthy storage_function = false) :
    ∀ md : Metadata, StorageKey.create_from_data data md vst pallet storage_function =
      .ok (StorageKey.init pallet storage_function none (some data) vst none md) := by
  intro md
  unfold StorageKey.create_from_data
  rcases h with h | h | h <;> simp [h]

/-- Witness: deferred construction with a value-type hint against the
fixture metadata. -/
theorem create_from_data_deferred_witness :
    StorageKey.create_from_data [1, 2] mdW (some U8) (some "X") (some "Y") =
      .ok (StorageKey.init (some "X") (some "Y") none (some [1, 2]) (some U8) none mdW) :=
  create_from_data_deferred [1, 2] (some U8) (some "X") (some "Y") (Or.inl rfl) mdW

/-- C10: a descriptor with neither a truthy symbolic address (pallet and
storage function both set and nonempty) nor truthy key data never produces
a textual representation however much fuel the self-recursive `__repr__`
is given; every other descriptor returns a string at the first step. -/
theorem repr_termination (s : StorageKey) :
    (¬((truthy s.pallet && truthy s.storage_function) = true ∨ truthyBytes s.data = true) →
      ∀ n, s.reprFuel n = none) ∧
    (((truthy s.pallet && truthy s.storage_function) = true ∨ truthyBytes s.data = true) →
      ∀ n, (s.reprFuel (n + 1)).isSome = true) := by
  constructor
  · intro h n
    push_neg at h
    induction n with
    | zero => rfl
    | succ n ih =>
      unfold StorageKey.reprFuel
      simp only [h.1, Bool.false_eq_true, if_false]
      rw [if_neg (by simp [h.2])]
      exact ih
  · intro h n
    unfold StorageKey.reprFuel
    rcases h with h | h
    · simp [h]
    · by_cases hpf : (truthy s.pallet && truthy s.storage_function) = true <;> simp [h, hpf]

/-- Witness: the representation theorem at a descriptor with no address
and no data (no string for fuel 5) and at one with a full symbolic
address (a string at once). -/
theorem repr_termination_witness :
    sNoRepr.reprFuel 5 = none ∧ (sC1.reprFuel 1).isSome = true :=
  ⟨(repr_termination sNoRepr).1 (by decide) 5,
   (repr_termination sC1).2 (Or.inl (by decide)) 0⟩

/-- The hasher dispatch chain succeeds exactly on the recognized names. -/
theorem hasherTransform_isSome (H : Hashers) (name : String) (b : Bytes) :
    (hasherTransform H name b).isSome = recognizedHasher name := by
  unfold hasherTransform recognizedHasher
  split_ifs with h1 h2 h3 h4 h5 h6 <;> simp_all

/-- The hashing loop raises the unknown-hasher error of the first
parameter slot whose effective hasher name is unrecognized, provided every
earlier slot has a declared, recognized hasher. -/
theorem hashParamsLoop_unknown (H : Hashers) :
    ∀ (j : Nat) (hashers : List (Option String)) (bs : List Bytes) (idx : Nat) (acc : Bytes)
      (h0 : Option String),
    hashers[idx + j]? = some h0 →
    recognizedHasher (hasherName h0) = false →
    j < bs.length →
    (∀ i, i < j → ∀ h1, hashers[idx + i]? = some h1 →
      recognizedHasher (hasherName h1) = true) →
    hashParamsLoop H hashers idx acc bs = .error (.unknownHasher (hasherName h0)) := by
  intro j
  induction j with
  | zero =>
    intro hashers bs idx acc h0 hj hrec hlen _hbefore
    cases bs with
    | nil => simp at hlen
    | cons b rest =>
      rw [Nat.add_zero] at hj
      unfold hashParamsLoop
      rw [hj]
      have ht : hasherTransform H (hasherName h0) b = none := by
        have := hasherTransform_isSome H (hasherName h0) b
        rw [hrec] at this
        exact Option.not_isSome_iff_eq_none.mp (by simp [this])
      simp [ht]
  | succ j ih =>
    intro hashers bs idx acc h0 hj hrec hlen hbefore
    cases bs with
    | nil => simp at hlen
    | cons b rest =>
      have hidxlt : idx < hashers.length := by
        have : idx + (j + 1) < hashers.length := by
          by_contra hc
          rw [List.getElem?_eq_none (by omega)] at hj
          exact Option.noConfusion hj
        omega
      have hh1 : hashers[idx]? = some hashers[idx] := List.getElem?_eq_getElem hidxlt
      have hrec1 : recognizedHasher (hasherName hashers[idx]) = true :=
        hbefore 0 (by omega) hashers[idx] (by rw [Nat.add_zero]; exact hh1)
      obtain ⟨out, hout⟩ : ∃ out, hasherTransform H (hasherName hashers[idx]) b = some out := by
        have := hasherTransform_isSome H (hasherName hashers[idx]) b
        rw [hrec1] at this
        exact Option.isSome_iff_exists.mp (by simp [this])
      unfold hashParamsLoop
      rw [hh1]
      simp only [hout]
      apply ih hashers rest (idx + 1) (acc ++ out) h0
      · rw [show idx + 1 + j = idx + (j + 1) by omega]
        exact hj
      · exact hrec
      · simpa using hlen
      · intro i hi h1 hh
        refine hbefore (i + 1) (by omega) h1 ?_
        rw [show idx + (i + 1) = idx + 1 + i by omega]
        exact hh

/-- The hashing loop raises the missing-hasher error (with the 1-based
parameter number) of the first parameter slot beyond the end of the
declared hasher list, provided every earlier slot has a recognized
effective hasher. -/
theorem hashParamsLoop_missing (H : Hashers) :
    ∀ (j : Nat) (hashers : List (Option String)) (bs : List Bytes) (idx : Nat) (acc : Bytes),
    hashers[idx + j]? = none →
    j < bs.length →
    (∀ i, i < j → ∃ h1, hashers[idx + i]? = some h1 ∧
      recognizedHasher (hasherName h1) = true) →
    hashParamsLoop H hashers idx acc bs = .error (.missingHasher (idx + j + 1)) := by
  intro j
  induction j with
  | zero =>
    intro hashers bs idx acc hj hlen _hbefore
    cases bs with
    | nil => simp at hlen
    | cons b rest =>
      rw [Nat.add_zero] at hj
      unfold hashParamsLoop
      rw [hj]
  | succ j ih =>
    intro hashers bs idx acc hj hlen hbefore
    cases bs with
    | nil => simp at hlen
    | cons b rest =>
      obtain ⟨h1, hh1, hrec1⟩ := hbefore 0 (by omega)
      rw [Nat.add_zero] at hh1
      obtain ⟨out, hout⟩ : ∃ out, hasherTransform H (hasherName h1) b = some out := by
        have := hasherTransform_isSome H (hasherName h1) b
        rw [hrec1] at this
        exact Option.isSome_iff_exists.mp (by simp [this])
      unfold hashParamsLoop
      rw [hh1]
      simp only [hout]
      rw [show idx + (j + 1) + 1 = idx + 1 + j + 1 by omega]
      apply ih hashers rest (idx + 1) (acc ++ out)
      · rw [show idx + 1 + j = idx + (j + 1) by omega]
        exact hj
      · simpa using hlen
      · intro i hi
        obtain ⟨h2, hh2, hrec2⟩ := hbefore (i + 1) (by omega)
        rw [show idx + (i + 1) = idx + 1 + i by omega] at hh2
        exact ⟨h2, hh2, hrec2⟩

/-- When every slot aligned with a remaining parameter is declared but
empty or absent, the hashing loop applies the default `Twox128` transform
to every parameter. -/
theorem hashParamsLoop_default (H : Hashers) :
    ∀ (bs : List Bytes) (hashers : List (Option String)) (idx : Nat) (acc : Bytes),
    (∀ i, i < bs.length → hashers[idx + i]? = some none ∨
      hashers[idx + i]? = some (some "")) →
    hashParamsLoop H hashers idx acc bs = .ok (acc ++ (bs.map H.xxh128).flatten) := by
  intro bs
  induction bs with
  | nil => intro hashers idx acc _; simp [hashParamsLoop]
  | cons b rest ih =>
    intro hashers idx acc hdef
    have h0 := hdef 0 (by simp)
    rw [Nat.add_zero] at h0
    have htw : hasherTransform H "Twox128" b = some (H.xxh128 b) := by
      simp [hasherTransform]
    have hrest : ∀ i, i < rest.length → hashers[idx + 1 + i]? = some none ∨
        hashers[idx + 1 + i]? = some (some "") := by
      intro i hi
      have := hdef (i + 1) (by simp only [List.length_cons]; omega)
      rw [show idx + (i + 1) = idx + 1 + i by omega] at this
      exact this
    unfold hashParamsLoop
    rcases h0 with h0 | h0 <;> rw [h0] <;>
      simp only [show hasherName none = "Twox128" from rfl,
        show hasherName (some "") = "Twox128" from rfl, htw] <;>
      rw [ih hashers (idx + 1) (acc ++ H.xxh128 b) hrest] <;> simp

/-- The failure path of `generate` in which the hashing loop raises: the
returned error carries the `hashFailState` instance. -/
theorem generate_hashfail_eq (H : Hashers) (s : StorageKey) (pm : PalletMd)
    (msf : StorageFunctionMd) (fn : String) (ps : List Param) (encs : List Bytes)
    (e : StorageError)
    (hp : s.metadata.get_metadata_pallet s.pallet = some pm)
    (hfn : s.storage_function = some fn)
    (hf : pm.get_storage_function fn = some msf)
    (hps : s.params = some ps)
    (hne : ps ≠ [])
    (henc : encodeParamsLoop (resolveParamTypes msf.param_types) 0 [] ps = .ok encs)
    (hkey : hashParamsLoop H msf.param_hashers 0
      (H.xxh128 (strBytes pm.storage_prefix_str) ++ H.xxh128 (strBytes fn)) encs = .error e) :
    s.generate H = .error (e, hashFailState s msf encs) := by
  have hpe : ps.isEmpty = false := by
    cases ps with
    | nil => exact absurd rfl hne
    | cons a l => rfl
  unfold StorageKey.generate
  rw [hp]
  simp only [hfn, hf, hps, hpe, Bool.false_eq_true, if_false, henc, hkey]
  simp [hashFailState]
  exact ⟨hfn.symm, hps.symm⟩

/-- C6: for every address that resolves and whose parameters all encode,
if some parameter slot declares a nonempty hasher name outside the
recognized set (and every earlier slot holds a recognized or defaulted
hasher), `generate` fails with the unknown-hasher error of that name and
the computed key bytes stay unset. -/
theorem generate_unknown_hasher (H : Hashers) (s : StorageKey) (pm : PalletMd)
    (msf : StorageFunctionMd) (fn : String) (ps : List Param) (encs : List Bytes)
    (j : Nat) (name : String)
    (hp : s.metadata.get_metadata_pallet s.pallet = some pm)
    (hfn : s.storage_function = some fn)
    (hf : pm.get_storage_function fn = some msf)
    (hps : s.params = some ps)
    (henc : encodeParamsLoop (resolveParamTypes msf.param_types) 0 [] ps = .ok encs)
    (hj : msf.param_hashers[j]? = some (some name))
    (hrec : recognizedHasher name = false)
    (hname : name ≠ "")
    (hjlen : j < encs.length)
    (hbefore : ∀ i, i < j → ∀ h1, msf.param_hashers[i]? = some h1 →
      recognizedHasher (hasherName h1) = true) :
    ∃ s', s.generate H = .error (.unknownHasher name, s') ∧ s'.data = s.data := by
  have hnm : hasherName (some name) = name := by simp [hasherName, hname]
  have hne : ps ≠ [] := by
    intro h0
    subst h0
    simp only [encodeParamsLoop] at henc
    have : encs = [] := (Except.ok.inj henc).symm
    subst this
    simp at hjlen
  have hkey : hashParamsLoop H msf.param_hashers 0
      (H.xxh128 (strBytes pm.storage_prefix_str) ++ H.xxh128 (strBytes fn)) encs =
      .error (.unknownHasher name) := by
    have := hashParamsLoop_unknown H j msf.param_hashers encs 0
      (H.xxh128 (strBytes pm.storage_prefix_str) ++ H.xxh128 (strBytes fn)) (some name)
      (by simpa using hj) (by rw [hnm]; exact hrec) hjlen
      (by intro i hi h1 hh; exact hbefore i hi h1 (by simpa using hh))
    rw [hnm] at this
    exact this
  exact ⟨hashFailState s msf encs,
    generate_hashfail_eq H s pm msf fn ps encs _ hp hfn hf hps hne henc hkey, rfl⟩

/-- Witness: the unknown-hasher theorem at the fixture address whose only
parameter slot declares hasher name `Foo`. -/
theorem generate_unknown_hasher_witness :
    ∃ s', sC6.generate H0 = .error (.unknownHasher "Foo", s') ∧ s'.data = sC6.data :=
  generate_unknown_hasher H0 sC6 palletP msfBad "Bad" [.native (.nat 1)] [[1]] 0 "Foo"
    rfl rfl rfl rfl rfl rfl (by decide) (by decide) (by decide)
    (fun i hi => absurd hi (by omega))

/-- C7: for every address that resolves and whose parameters all encode:
a parameter index with no corresponding entry in the declared hasher list
makes `generate` fail with the missing-hasher error naming the first such
1-based parameter number, while slots whose entry exists but is empty or
absent are hashed with the default `Twox128` transform instead of
failing. -/
theorem generate_hasher_slots (H : Hashers) (s : StorageKey) (pm : PalletMd)
    (msf : StorageFunctionMd) (fn : String) (ps : List Param) (encs : List Bytes)
    (hp : s.metadata.get_metadata_pallet s.pallet = some pm)
    (hfn : s.storage_function = some fn)
    (hf : pm.get_storage_function fn = some msf)
    (hps : s.params = some ps)
    (henc : encodeParamsLoop (resolveParamTypes msf.param_types) 0 [] ps = .ok encs) :
    (msf.param_hashers.length < encs.length →
      (∀ i, i < msf.param_hashers.length → ∃ h1, msf.param_hashers[i]? = some h1 ∧
        recognizedHasher (hasherName h1) = true) →
      ∃ s', s.generate H = .error (.missingHasher (msf.param_hashers.length + 1), s') ∧
        s'.data = s.data) ∧
    ((∀ i, i < encs.length → msf.param_hashers[i]? = some none ∨
        msf.param_hashers[i]? = some (some "")) →
      ∃ s', s.generate H = .ok (s',
        H.xxh128 (strBytes pm.storage_prefix_str) ++ H.xxh128 (strBytes fn) ++
          (encs.map H.xxh128).flatten)) := by
  constructor
  · intro hmiss hallrec
    have hne : ps ≠ [] := by
      intro h0
      subst h0
      simp only [encodeParamsLoop] at henc
      have : encs = [] := (Except.ok.inj henc).symm
      subst this
      simp at hmiss
    have hkey : hashParamsLoop H msf.param_hashers 0
        (H.xxh128 (strBytes pm.storage_prefix_str) ++ H.xxh128 (strBytes fn)) encs =
        .error (.missingHasher (msf.param_hashers.length + 1)) := by
      have := hashParamsLoop_missing H msf.param_hashers.length msf.param_hashers encs 0
        (H.xxh128 (strBytes pm.storage_prefix_str) ++ H.xxh128 (strBytes fn))
        (by simp) hmiss
        (by intro i hi; simpa using hallrec i hi)
      simpa using this
    exact ⟨hashFailState s msf encs,
      generate_hashfail_eq H s pm msf fn ps encs _ hp hfn hf hps hne henc hkey, rfl⟩
  · intro hdef
    have hkey : hashParamsLoop H msf.param_hashers 0
        (H.xxh128 (strBytes pm.storage_prefix_str) ++ H.xxh128 (strBytes fn)) encs =
        .ok (H.xxh128 (strBytes pm.storage_prefix_str) ++ H.xxh128 (strBytes fn) ++
          (encs.map H.xxh128).flatten) := by
      have := hashParamsLoop_default H encs msf.param_hashers 0
        (H.xxh128 (strBytes pm.storage_prefix_str) ++ H.xxh128 (strBytes fn))
        (by intro i hi; simpa using hdef i hi)
      rw [this, List.append_assoc]
    exact ⟨resolvedState s msf encs _,
      generate_ok_eq H s pm msf fn ps encs _ hp hfn hf hps henc hkey⟩

/-- Witness: missing-hasher at the two-parameter fixture with one declared
hasher, and the `Twox128` default at the fixture whose hasher slots are
empty or absent. -/
theorem generate_hasher_slots_witness :
    (∃ s', sNoHash.generate H0 = .error (.missingHasher 2, s') ∧ s'.data = sNoHash.data) ∧
    (∃ s', sDefH.generate H0 = .ok (s',
      H0.xxh128 (strBytes "PP") ++ H0.xxh128 (strBytes "DefH") ++
        ([[5], [7]].map H0.xxh128).flatten)) := by
  constructor
  · exact (generate_hasher_slots H0 sNoHash palletP msfNoHash "NoHash"
      [.native (.nat 5), .native (.nat 7)] [[5], [7]] rfl rfl rfl rfl rfl).1
      (by decide)
      (fun i hi => by
        have hi0 : i = 0 := by
          have : msfNoHash.param_hashers.length = 1 := rfl
          omega
        subst hi0
        exact ⟨some "Twox128", rfl, rfl⟩)
  · exact (generate_hasher_slots H0 sDefH palletP msfDefH "DefH"
      [.native (.nat 5), .native (.nat 7)] [[5], [7]] rfl rfl rfl rfl rfl).2
      (fun i hi => by
        have : i = 0 ∨ i = 1 := by
          have : ([[5], [7]] : List Bytes).length = 2 := rfl
          omega
        rcases this with rfl | rfl
        · exact Or.inr rfl
        · exact Or.inl rfl)

/-- C8 as written fails on the code: when `generate` raises the
unknown-hasher error the instance has already been mutated — here
`params_encoded` went from `[]` to the encoded parameter list, so the
fields are not all left in their pre-call state. -/
theorem generate_error_mutation_counterexample :
    (match sC6.generate H0 with
     | .error (_, s') => s'.params_encoded
     | .ok _ => []) = [[1]] ∧ sC6.params_encoded = [] :=
  ⟨rfl, rfl⟩

/-- C8 amended: whatever error `generate` raises, the computed key bytes
(`data`) are unchanged from the pre-call state; the other resolution
fields (`metadata_storage_function`, value/parameter types, hashers,
`params_encoded`) may already have been overwritten. -/
theorem generate_error_data_unchanged (H : Hashers) (s : StorageKey)
    (e : StorageError) (s' : StorageKey)
    (h : s.generate H = .error (e, s')) : s'.data = s.data := by
  unfold StorageKey.generate at h
  cases hp : s.metadata.get_metadata_pallet s.pallet with
  | none =>
    rw [hp] at h
    simp only [Except.error.injEq, Prod.mk.injEq] at h
    rw [← h.2]
  | some pm =>
    rw [hp] at h
    cases hsf : s.storage_function with
    | none =>
      simp only [hsf] at h
      simp only [Except.error.injEq, Prod.mk.injEq] at h
      rw [← h.2]
    | some fn =>
      simp only [hsf] at h
      cases hmsf : pm.get_storage_function fn with
      | none =>
        simp only [hmsf] at h
        simp only [Except.error.injEq, Prod.mk.injEq] at h
        rw [← h.2]
      | some msf =>
        simp only [hmsf] at h
        cases hps : s.params with
        | none =>
          simp only [hps] at h
          exact absurd h (by simp)
        | some ps =>
          simp only [hps] at h
          by_cases hpe : ps.isEmpty = true
          · rw [if_pos hpe] at h
            exact absurd h (by simp)
          · rw [if_neg hpe] at h
            cases henc : encodeParamsLoop (resolveParamTypes msf.param_types) 0 [] ps with
            | error epair =>
              obtain ⟨e1, partialEncs⟩ := epair
              rw [henc] at h
              simp only [Except.error.injEq, Prod.mk.injEq] at h
              rw [← h.2]
            | ok encs =>
              simp only [henc] at h
              cases hkey : hashParamsLoop H msf.param_hashers 0
                  (H.xxh128 (strBytes pm.storage_prefix_str) ++ H.xxh128 (strBytes fn))
                  encs with
              | error e1 =>
                simp only [hkey] at h
                simp only [Except.error.injEq, Prod.mk.injEq] at h
                rw [← h.2]
              | ok key =>
                simp only [hkey] at h
                exact absurd h (by simp)

/-- Witness: the data-unchanged theorem at the concrete failing address. -/
theorem generate_error_data_unchanged_witness :
    (hashFailState sC6 msfBad [[1]]).data = sC6.data :=
  generate_error_data_unchanged H0 sC6 (.unknownHasher "Foo") (hashFailState sC6 msfBad [[1]])
    (by rfl)

/-- C5: `generate` is a pure function of (pallet, storage function,
parameters, metadata) and idempotent: after a successful run the instance
regenerates to the byte-identical key and the identical instance, its key
bytes are cached in `data`, and every instance with the same address
fields generates the byte-identical key. -/
theorem generate_idempotent (H : Hashers) (s s' : StorageKey) (key : Bytes)
    (h : s.generate H = .ok (s', key)) :
    s'.generate H = .ok (s', key) ∧ s'.data = some key ∧
    (∀ t : StorageKey, t.pallet = s.pallet → t.storage_function = s.storage_function →
      t.params = s.params → t.metadata = s.metadata →
      ∃ t', t.generate H = .ok (t', key)) := by
  unfold StorageKey.generate at h
  cases hp : s.metadata.get_metadata_pallet s.pallet with
  | none =>
    rw [hp] at h
    exact absurd h (by simp)
  | some pm =>
    rw [hp] at h
    cases hsf : s.storage_function with
    | none =>
      simp only [hsf] at h
      exact absurd h (by simp)
    | some fn =>
      simp only [hsf] at h
      cases hmsf : pm.get_storage_function fn with
      | none =>
        simp only [hmsf] at h
        exact absurd h (by simp)
      | some msf =>
        simp only [hmsf] at h
        cases hps : s.params with
        | none =>
          simp only [hps] at h
          obtain ⟨h1, h2⟩ := Prod.mk.injEq .. ▸ Except.ok.inj h
          subst h2
          refine ⟨?_, by rw [← h1], ?_⟩
          · rw [← h1]
            exact generate_ok_none (s := { s with
                storage_function := some fn
                params := none
                params_encoded := []
                data := some (H.xxh128 (strBytes pm.storage_prefix_str) ++ H.xxh128 (strBytes fn))
                value_scale_type := some msf.value_type
                param_scale_types := some (resolveParamTypes msf.param_types)
                param_hashers := some msf.param_hashers
                metadata_storage_function := some msf })
              H pm msf fn hp rfl hmsf rfl
          · intro t ht1 ht2 ht3 ht4
            exact ⟨_, generate_ok_none H t pm msf fn
              (by rw [ht4, ht1]; try exact hp) (by rw [ht2]; try exact hsf) hmsf
              (by rw [ht3]; try exact hps)⟩
        | some ps =>
          simp only [hps] at h
          by_cases hpe : ps.isEmpty = true
          · rw [if_pos hpe] at h
            have hps0 : ps = [] := List.isEmpty_iff.mp hpe
            subst hps0
            obtain ⟨h1, h2⟩ := Prod.mk.injEq .. ▸ Except.ok.inj h
            subst h2
            refine ⟨?_, by rw [← h1], ?_⟩
            · rw [← h1]
              exact generate_ok_eq (s := { s with
                  storage_function := some fn
                  params := some []
                  params_encoded := []
                  data := some (H.xxh128 (strBytes pm.storage_prefix_str) ++ H.xxh128 (strBytes fn))
                  value_scale_type := some msf.value_type
                  param_scale_types := some (resolveParamTypes msf.param_types)
                  param_hashers := some msf.param_hashers
                  metadata_storage_function := some msf })
                H pm msf fn [] [] _ hp rfl hmsf rfl rfl rfl
            · intro t ht1 ht2 ht3 ht4
              exact ⟨_, generate_ok_eq H t pm msf fn [] [] _
                (by rw [ht4, ht1]; try exact hp) (by rw [ht2]; try exact hsf) hmsf
                (by rw [ht3]; try exact hps) rfl rfl⟩
          · rw [if_neg hpe] at h
            cases henc : encodeParamsLoop (resolveParamTypes msf.param_types) 0 [] ps with
            | error epair =>
              obtain ⟨e1, partialEncs⟩ := epair
              simp only [henc] at h
              exact absurd h (by simp)
            | ok encs =>
              simp only [henc] at h
              cases hkey : hashParamsLoop H msf.param_hashers 0
                  (H.xxh128 (strBytes pm.storage_prefix_str) ++ H.xxh128 (strBytes fn))
                  encs with
              | error e1 =>
                simp only [hkey] at h
                exact absurd h (by simp)
              | ok key1 =>
                simp only [hkey] at h
                obtain ⟨h1, h2⟩ := Prod.mk.injEq .. ▸ Except.ok.inj h
                subst h2
                refine ⟨?_, by rw [← h1], ?_⟩
                · rw [← h1]
                  exact generate_ok_eq (s := { s with
                      storage_function := some fn
                      params := some ps
                      params_encoded := encs
                      data := some key1
                      value_scale_type := some msf.value_type
                      param_scale_types := some (resolveParamTypes msf.param_types)
                      param_hashers := some msf.param_hashers
                      metadata_storage_function := some msf })
                    H pm msf fn ps encs key1 hp rfl hmsf rfl henc hkey
                · intro t ht1 ht2 ht3 ht4
                  exact ⟨_, generate_ok_eq H t pm msf fn ps encs key1
                    (by rw [ht4, ht1]; try exact hp) (by rw [ht2]; try exact hsf) hmsf
                    (by rw [ht3]; try exact hps) henc hkey⟩

/-- Decoding a fixed raw block of the right length splits an append. -/
theorem arrayDef_decode_append (n : Nat) (a b : Bytes) (ha : a.length = n) :
    (ArrayDef n).decode (a ++ b) = some (.raw a, b) := by
  simp only [ArrayDef]
  rw [if_pos (by simp [← ha])]
  rw [← ha, List.take_left, List.drop_left]

/-- The hasher-indexing `create_key_type_def` loop agrees with its fully
structural form on the dropped hasher suffix. -/
theorem keyItemsLoop_eq (hashers : List (Option String)) :
    ∀ (trest : List ScaleTypeDef) (n : Nat),
    keyItemsLoop hashers n trest = keyItemsTail (hashers.drop n) trest := by
  intro trest
  induction trest with
  | nil => intro n; cases hashers.drop n <;> rfl
  | cons t trest ih =>
    intro n
    unfold keyItemsLoop
    cases hh : hashers[n]? with
    | none =>
      rw [drop_eq_nil_of_getElem?_none hashers n hh]
      rfl
    | some h0 =>
      rw [drop_eq_cons_of_getElem? hashers n h0 hh]
      rw [ih (n + 1)]
      cases hcl : concat_hash_len h0 with
      | none => simp [keyItemsTail, hcl]
      | some len => simp [keyItemsTail, hcl]

/-- Core of the key-tail roundtrip: over aligned parameter types, hash
kinds that all concatenate their input, and elementwise encodings, the
hashing loop succeeds, the key-tail items build, and decoding the
concatenated segments (with arbitrary trailing bytes) recovers the
original values at the odd slots. -/
theorem keyItems_roundtrip (H : Hashers)
    (hb128 : ∀ b, (H.blake2_128 b).length = 16)
    (h64 : ∀ b, (H.xxh64 b).length = 8) :
    ∀ (ts : List ScaleTypeDef) (hs : List (Option String)) (vs : List ScaleValue)
      (encs : List Bytes) (idx : Nat) (rest : Bytes),
    (∀ t ∈ ts, PrefixRoundtrip t) →
    (∀ h0 ∈ hs, concatKind h0 = true) →
    EncodesTo ts vs encs →
    encs.length ≤ hs.length →
    ∃ segs items ws,
      hashSegs H idx hs encs = .ok segs ∧
      keyItemsTail hs ts = .ok items ∧
      tupleDecode items (segs.flatten ++ rest) = some (ws, rest) ∧
      oddSlots ws = vs := by
  intro ts
  induction ts with
  | nil =>
    intro hs vs encs idx rest _ _ henc _
    cases vs with
    | cons v vs' => cases encs <;> simp [EncodesTo] at henc
    | nil =>
      cases encs with
      | cons e es => simp [EncodesTo] at henc
      | nil =>
        refine ⟨[], [], [], hashSegs_nil H idx hs, ?_, by simp [tupleDecode], rfl⟩
        cases hs <;> rfl
  | cons t ts' ih =>
    intro hs vs encs idx rest hrt hck henc hlen
    cases vs with
    | nil => cases encs <;> simp [EncodesTo] at henc
    | cons v vs' =>
      cases encs with
      | nil => simp [EncodesTo] at henc
      | cons e encs' =>
        obtain ⟨he, henc'⟩ := henc
        cases hs with
        | nil => simp at hlen
        | cons h0 hs' =>
          have hck0 : concatKind h0 = true := hck h0 (List.mem_cons_self ..)
          cases h0 with
          | none => simp [concatKind] at hck0
          | some n =>
            have hn3 : (n = "Blake2_128Concat" ∨ n = "Twox64Concat") ∨ n = "Identity" := by
              simpa [concatKind] using hck0
            obtain ⟨segs', items', ws', hsegs', hitems', hdec', hodd'⟩ :=
              ih hs' vs' encs' (idx + 1) rest
                (fun t' ht' => hrt t' (List.mem_cons_of_mem _ ht'))
                (fun h1 hh1 => hck h1 (List.mem_cons_of_mem _ hh1))
                henc' (by simpa using hlen)
            have hmem_t : PrefixRoundtrip t := hrt t (List.mem_cons_self ..)
            rcases hn3 with (rfl | rfl) | rfl
            · refine ⟨blake2_128_concat H e :: segs', ArrayDef 16 :: t :: items',
                .raw (H.blake2_128 e) :: v :: ws', ?_, ?_, ?_, ?_⟩
              · simp only [hashSegs,
                  show hasherName (some "Blake2_128Concat") = "Blake2_128Concat" from rfl,
                  show hasherTransform H "Blake2_128Concat" e =
                    some (blake2_128_concat H e) from by simp [hasherTransform],
                  hsegs']
              · simp [keyItemsTail, concat_hash_len, hitems']
              · have h1 := arrayDef_decode_append 16 (H.blake2_128 e)
                  (e ++ (segs'.flatten ++ rest)) (hb128 e)
                have h2 := hmem_t v e (segs'.flatten ++ rest) he
                simp only [List.flatten_cons, blake2_128_concat, List.append_assoc,
                  tupleDecode, h1, h2, hdec']
              · simp [oddSlots, hodd']
            · refine ⟨two_x64_concat H e :: segs', ArrayDef 8 :: t :: items',
                .raw (H.xxh64 e) :: v :: ws', ?_, ?_, ?_, ?_⟩
              · simp only [hashSegs,
                  show hasherName (some "Twox64Concat") = "Twox64Concat" from rfl,
                  show hasherTransform H "Twox64Concat" e =
                    some (two_x64_concat H e) from by simp [hasherTransform],
                  hsegs']
              · simp [keyItemsTail, concat_hash_len, hitems']
              · have h1 := arrayDef_decode_append 8 (H.xxh64 e)
                  (e ++ (segs'.flatten ++ rest)) (h64 e)
                have h2 := hmem_t v e (segs'.flatten ++ rest) he
                simp only [List.flatten_cons, two_x64_concat, List.append_assoc,
                  tupleDecode, h1, h2, hdec']
              · simp [oddSlots, hodd']
            · refine ⟨identity e :: segs', ArrayDef 0 :: t :: items',
                .raw [] :: v :: ws', ?_, ?_, ?_, ?_⟩
              · simp only [hashSegs,
                  show hasherName (some "Identity") = "Identity" from rfl,
                  show hasherTransform H "Identity" e =
                    some (identity e) from by simp [hasherTransform],
                  hsegs']
              · simp [keyItemsTail, concat_hash_len, hitems']
              · have h1 := arrayDef_decode_append 0 [] (e ++ (segs'.flatten ++ rest)) rfl
                have h2 := hmem_t v e (segs'.flatten ++ rest) he
                simp only [List.nil_append] at h1
                simp only [List.flatten_cons, identity, List.append_assoc,
                  tupleDecode, h1, h2, hdec']
              · simp [oddSlots, hodd']

/-- `U8` is a prefix-correct codec. -/
theorem U8_prefix_roundtrip : PrefixRoundtrip U8 := by
  intro v bs rest he
  cases v with
  | nat n =>
    by_cases hn : n < 256
    · have hbs : bs = [n] := by
        simp only [U8] at he
        rw [if_pos hn] at he
        exact (Option.some.inj he).symm
      subst hbs
      simp [U8]
    · simp only [U8] at he
      rw [if_neg hn] at he
      exact Option.noConfusion he
  | raw bs' => simp [U8] at he
  | tup vs' => simp [U8] at he
  | noneVal => simp [U8] at he
  | someVal v' => simp [U8] at he

/-- `decode_key_data` on an instance with resolved parameter types and
hashers, key data `d` and a full key `d ++ tail`, reduces to decoding the
key-tail items against `tail`. -/
theorem decode_key_data_of (s : StorageKey) (ts : List ScaleTypeDef)
    (hashers : List (Option String)) (d : Bytes) (items : List ScaleTypeDef)
    (ws : List ScaleValue) (tailBytes : Bytes)
    (hpt : s.param_scale_types = some ts)
    (hph : s.param_hashers = some hashers)
    (hd : s.data = some d)
    (hdne : d ≠ [])
    (hitems : keyItemsTail hashers ts = .ok items)
    (hdec : tupleDecode items tailBytes = some (ws, [])) :
    s.decode_key_data (d ++ tailBytes) 0 = .ok (.tup ws) := by
  unfold StorageKey.decode_key_data StorageKey.create_key_type_def
  simp only [hpt, hph]
  rw [show (ts.drop 0) = ts from List.drop_zero ts]
  rw [keyItemsLoop_eq]
  rw [show (hashers.drop 0) = hashers from List.drop_zero hashers]
  simp only [hitems, hd]
  rw [if_neg (fun hc => hdne (List.isEmpty_iff.mp hc))]
  rw [List.drop_left]
  simp only [TupleDef, hdec]

/-- C3: for every address whose parameters are all hashed with a
concatenating hash kind (128-bit concat, 64-bit concat, identity) and whose
parameter types are prefix-correct codecs, decoding the key tail of the
key produced by `generate` for those parameters — through a
zero-parameter instance of the same address, starting at parameter
index 0 — recovers values equal to the original parameters. -/
theorem decode_key_data_roundtrip (H : Hashers)
    (h128 : ∀ b, (H.xxh128 b).length = 16)
    (hb128 : ∀ b, (H.blake2_128 b).length = 16)
    (h64 : ∀ b, (H.xxh64 b).length = 8)
    (md : Metadata) (pn fn : String) (pm : PalletMd) (msf : StorageFunctionMd)
    (ts : List ScaleTypeDef) (vs : List ScaleValue) (encs : List Bytes)
    (hp : md.get_metadata_pallet (some pn) = some pm)
    (hf : pm.get_storage_function fn = some msf)
    (hts : resolveParamTypes msf.param_types = ts)
    (hrt : ∀ t ∈ ts, PrefixRoundtrip t)
    (hck : ∀ h0 ∈ msf.param_hashers, concatKind h0 = true)
    (henc : EncodesTo ts vs encs)
    (hlen : encs.length ≤ msf.param_hashers.length) :
    ∃ sFull key sPre preKey ws,
      (StorageKey.init (some pn) (some fn) (some (vs.map .native))
        none none none md).generate H = .ok (sFull, key) ∧
      (StorageKey.init (some pn) (some fn) none none none none md).generate H
        = .ok (sPre, preKey) ∧
      sPre.decode_key_data key 0 = .ok (.tup ws) ∧
      oddSlots ws = vs := by
  obtain ⟨segs, items, ws, hsegs, hitems, hdec, hodd⟩ :=
    keyItems_roundtrip H hb128 h64 ts msf.param_hashers vs encs 0 [] hrt hck henc hlen
  rw [List.append_nil] at hdec
  have hencloop : encodeParamsLoop (resolveParamTypes msf.param_types) 0 []
      (vs.map .native) = .ok ([] ++ encs) :=
    encodeParamsLoop_of_encodesTo _ vs encs 0 []
      (by rw [List.drop_zero, hts]; exact henc)
  simp only [List.nil_append] at hencloop
  have hfull := generate_ok_segments H md pn fn pm msf (vs.map .native) encs segs
    hp hf hencloop hsegs
  have hpre := generate_ok_none
    (s := StorageKey.init (some pn) (some fn) none none none none md)
    H pm msf fn hp rfl hf rfl
  refine ⟨_, _, _, _, ws, hfull, hpre, ?_, hodd⟩
  have hdrw : H.xxh128 (strBytes pm.storage_prefix_str) ++ H.xxh128 (strBytes fn) ++
      segs.flatten =
      (H.xxh128 (strBytes pm.storage_prefix_str) ++ H.xxh128 (strBytes fn)) ++
      segs.flatten := rfl
  refine decode_key_data_of _ ts msf.param_hashers
    (H.xxh128 (strBytes pm.storage_prefix_str) ++ H.xxh128 (strBytes fn)) items ws
    segs.flatten ?_ ?_ ?_ ?_ hitems hdec
  · simp [resolvedState, StorageKey.init, hts]
  · simp [resolvedState, StorageKey.init]
  · simp [resolvedState, StorageKey.init]
  · intro hc
    have := congrArg List.length hc
    simp [h128] at this

/-- Witness: the roundtrip at the fixture function with hashers
`Blake2_128Concat` and `Identity` and two `U8` parameters `5` and `7`. -/
theorem decode_key_data_roundtrip_witness :
    ∃ sFull key sPre preKey ws,
      (StorageKey.init (some "P") (some "F")
        (some ([ScaleValue.nat 5, ScaleValue.nat 7].map .native))
        none none none mdW).generate H0 = .ok (sFull, key) ∧
      (StorageKey.init (some "P") (some "F") none none none none mdW).generate H0
        = .ok (sPre, preKey) ∧
      sPre.decode_key_data key 0 = .ok (.tup ws) ∧
      oddSlots ws = [ScaleValue.nat 5, ScaleValue.nat 7] :=
  decode_key_data_roundtrip H0 (fun _ => rfl) (fun _ => rfl) (fun _ => rfl)
    mdW "P" "F" palletP msfF [U8, U8] [ScaleValue.nat 5, ScaleValue.nat 7] [[5], [7]]
    rfl rfl rfl
    (by
      intro t ht
      have : t = U8 := by
        rcases List.mem_cons.mp ht with h | h
        · exact h
        · simpa using h
      rw [this]
      exact U8_prefix_roundtrip)
    (by decide)
    ⟨rfl, rfl, trivial⟩
    (by decide)

/-- Witness: idempotence at the concrete two-parameter address. -/
theorem generate_idempotent_witness :
    ∃ s' key, sDefH.generate H0 = .ok (s', key) ∧
      s'.generate H0 = .ok (s', key) ∧ s'.data = some key := by
  have hgen := generate_ok_eq H0 sDefH palletP msfDefH "DefH"
    [.native (.nat 5), .native (.nat 7)] [[5], [7]] _ rfl rfl rfl rfl rfl rfl
  have h := generate_idempotent H0 sDefH _ _ hgen
  exact ⟨_, _, hgen, h.1, h.2.1⟩

end PySubstrate
